import Mathlib

/-!
Shallow embedding of `src/compile_shaders.py`, an incremental shader build
driver.

Modelling choices:
* Paths are `String`s.  `os.path.abspath` is modelled as the identity: the
  paths in the model are taken to be already absolute.
* The filesystem is modelled by the list of paths the recursive glob
  discovers (in its unspecified enumeration order), together with a partial
  modification-time map `mt : String → Option Nat`; `mt p = none` means the
  file does not exist (`os.stat` raises `FileNotFoundError`).  Modification
  times are nonnegative timestamps, modelled as `Nat`.
* The external compiler is a black box: a run is parametrised by the map
  `rc` from argument vectors to process return codes (`Int`, since a POSIX
  return code can be negative for a signal).
* The observable behaviour of a run is the ordered list of its side
  effects: compiler invocations (`subprocess.run(['glslc', '-o', dst, src])`)
  and deletions (`os.unlink`), together with a flag recording whether the
  run aborted with `CalledProcessError` (raised by `check_returncode`).
-/

/-- Python `s.endswith(suf)`: `suf` is a suffix of `s`. -/
def strEndsWith (s suf : String) : Bool :=
  suf.data.isSuffixOf s.data

/-- Python `s.startswith(p)`: `p` is a prefix of `s`.  Used to model which
paths the recursive glob over `resources/shaders/**` discovers. -/
def strStartsWith (s p : String) : Bool :=
  p.data.isPrefixOf s.data

/-- Lines 9–14: `get_mtime` returns `os.stat(fpath).st_mtime`, with a
missing file (`FileNotFoundError`) mapped to `0.0`. -/
def get_mtime (mt : String → Option Nat) (fpath : String) : Nat :=
  match mt fpath with
  | some t => t
  | none => 0

/-- Line 33: a path is a shader source iff it ends in `.vert` or `.frag`. -/
def isShaderSource (p : String) : Bool :=
  strEndsWith p ".vert" || strEndsWith p ".frag"

/-- Line 36: `dst_path = '{}.spv'.format(src_path)`. -/
def dstPath (src : String) : String := src ++ ".spv"

/-- Line 42: the argument vector `['glslc', '-o', dst_path, src_path]` passed
to `subprocess.run`. -/
def glslcArgv (src : String) : List String :=
  ["glslc", "-o", dstPath src, src]

/-- An observable side effect of a run. -/
inductive Event where
  | invoke (argv : List String)
  | remove (path : String)
deriving DecidableEq

/-- Lines 31–43, build mode, processing the discovered paths in enumeration
order.  Returns the event trace and `true` iff the run aborted because
`check_returncode` raised on a non-zero compiler return code. -/
def buildRun (mt : String → Option Nat) (rc : List String → Int) :
    List String → List Event × Bool
  | [] => ([], false)
  | f :: rest =>
    if isShaderSource f = false then
      buildRun mt rc rest
    else if get_mtime mt (dstPath f) > get_mtime mt f then
      buildRun mt rc rest
    else if rc (glslcArgv f) = 0 then
      let r := buildRun mt rc rest
      (Event.invoke (glslcArgv f) :: r.1, r.2)
    else
      ([Event.invoke (glslcArgv f)], true)

/-- Lines 22–29, clean mode: delete every discovered path ending in `.spv`. -/
def cleanRun : List String → List Event
  | [] => []
  | f :: rest =>
    if strEndsWith f ".spv" then Event.remove f :: cleanRun rest
    else cleanRun rest

/-- The root directory of the glob pattern `resources/shaders/**`. -/
def shaderRoot : String := "resources/shaders/"

/-- Model of `glob.glob('resources/shaders/**', recursive=True)`: from the
existing filesystem entries, the glob matches exactly those under the root;
in particular a missing root directory yields no matches (not an error). -/
def globShaders (existing : List String) : List String :=
  existing.filter (fun p => strStartsWith p shaderRoot)

/-- Lines 17–43: `main` after argument parsing, as a function of the
`--clean` flag.  Clean mode deletes artifacts and returns; build mode
compiles stale sources. -/
def mainRun (clean : Bool) (mt : String → Option Nat) (rc : List String → Int)
    (found : List String) : List Event × Bool :=
  if clean then (cleanRun found, false) else buildRun mt rc found

/-- The test at lines 38–39 in positive form: `f` is compiled iff it is a
shader source and its artifact's mtime is not strictly greater. -/
def needsCompile (mt : String → Option Nat) (f : String) : Bool :=
  isShaderSource f && ! decide (get_mtime mt (dstPath f) > get_mtime mt f)

/-- Classifier for deletion events. -/
def isRemoveEvent : Event → Bool
  | Event.remove _ => true
  | Event.invoke _ => false

/-- Classifier for compiler-invocation events. -/
def isInvokeEvent : Event → Bool
  | Event.invoke _ => true
  | Event.remove _ => false

/-- Fixture: a filesystem with no files at all. -/
def mtNone : String → Option Nat := fun _ => none

/-- Fixture: a modification-time map given by an association list. -/
def mtOf (l : List (String × Nat)) : String → Option Nat :=
  fun p => (l.find? (fun e => e.1 == p)).map (fun e => e.2)

/-- Fixture: a compiler that always succeeds. -/
def rcZero : List String → Int := fun _ => 0

/-- Fixture: a compiler that always fails. -/
def rcOne : List String → Int := fun _ => 1

example : strEndsWith "a.vert" ".vert" = true := by decide
example : strEndsWith "a.vert.spv" ".vert" = false := by decide
example : isShaderSource "resources/shaders/a.frag" = true := by decide
example : dstPath "a.vert" = "a.vert.spv" := by decide

/-- A non-zero compiler return code is the only way build mode aborts; a
successful run's trace is exactly one invocation per discovered path that
passes the extension filter and the staleness test, in enumeration order. -/
theorem buildRun_ok_eq (mt : String → Option Nat) (rc : List String → Int)
    (fs : List String) (h : (buildRun mt rc fs).2 = false) :
    buildRun mt rc fs =
      ((fs.filter (needsCompile mt)).map (fun f => Event.invoke (glslcArgv f)),
        false) := by
  induction fs with
  | nil => rfl
  | cons f rest ih =>
    by_cases hs : isShaderSource f = false
    · have hnc : needsCompile mt f = false := by simp [needsCompile, hs]
      simp only [buildRun, if_pos hs] at h
      simp only [buildRun, if_pos hs, List.filter_cons, hnc]
      exact ih h
    · by_cases hgt : get_mtime mt (dstPath f) > get_mtime mt f
      · have hnc : needsCompile mt f = false := by
          simp [needsCompile, hgt]
        simp only [buildRun, if_neg hs, if_pos hgt] at h
        simp only [buildRun, if_neg hs, if_pos hgt, List.filter_cons, hnc]
        exact ih h
      · have hs' : isShaderSource f = true := by simpa using hs
        have hnc : needsCompile mt f = true := by
          simp [needsCompile, hs', hgt]
        by_cases hrc : rc (glslcArgv f) = 0
        · simp only [buildRun, if_neg hs, if_neg hgt, if_pos hrc] at h
          simp only [buildRun, if_neg hs, if_neg hgt, if_pos hrc]
          rw [ih h]
          simp [List.filter_cons, hnc]
        · simp only [buildRun, if_neg hs, if_neg hgt, if_neg hrc] at h
          exact absurd h (by simp)

/-- The source path is recoverable from the argument vector, so distinct
sources are never conflated in the trace. -/
theorem glslcArgv_injective : Function.Injective glslcArgv := by
  intro a b h
  simp only [glslcArgv, List.cons.injEq, and_true] at h
  exact h.2.2.2

/-- If every discovered path is filtered out or up to date, build mode does
nothing and succeeds. -/
theorem buildRun_all_skip (mt : String → Option Nat) (rc : List String → Int)
    (fs : List String) (h : ∀ f ∈ fs, needsCompile mt f = false) :
    buildRun mt rc fs = ([], false) := by
  induction fs with
  | nil => rfl
  | cons f rest ih =>
    have hf := h f (List.mem_cons_self f rest)
    have hrest := ih fun g hg => h g (List.mem_cons_of_mem f hg)
    simp only [needsCompile, Bool.and_eq_false_iff, Bool.not_eq_false'] at hf
    rcases hf with hf | hf
    · simp only [buildRun, if_pos hf]
      exact hrest
    · by_cases hs : isShaderSource f = false
      · simp only [buildRun, if_pos hs]
        exact hrest
      · have hgt : get_mtime mt (dstPath f) > get_mtime mt f := of_decide_eq_true hf
        simp only [buildRun, if_neg hs, if_pos hgt]
        exact hrest

/-- Processing a concatenation whose first part does not abort processes the
second part afterwards. -/
theorem buildRun_append_of_ok (mt : String → Option Nat) (rc : List String → Int)
    (l1 l2 : List String) (h : (buildRun mt rc l1).2 = false) :
    buildRun mt rc (l1 ++ l2) =
      ((buildRun mt rc l1).1 ++ (buildRun mt rc l2).1, (buildRun mt rc l2).2) := by
  induction l1 with
  | nil => simp [buildRun]
  | cons f rest ih =>
    by_cases hs : isShaderSource f = false
    · simp only [buildRun, if_pos hs] at h
      simp only [List.cons_append, buildRun, if_pos hs]
      exact ih h
    · by_cases hgt : get_mtime mt (dstPath f) > get_mtime mt f
      · simp only [buildRun, if_neg hs, if_pos hgt] at h
        simp only [List.cons_append, buildRun, if_neg hs, if_pos hgt]
        exact ih h
      · by_cases hrc : rc (glslcArgv f) = 0
        · simp only [buildRun, if_neg hs, if_neg hgt, if_pos hrc] at h
          simp only [List.cons_append, buildRun, if_neg hs, if_neg hgt,
            if_pos hrc]
          rw [List.append_eq, ih h]
        · simp only [buildRun, if_neg hs, if_neg hgt, if_neg hrc] at h
          exact absurd h (by simp)

/-- Once build mode has aborted, any further discovered paths are ignored:
the run's outcome does not depend on them. -/
theorem buildRun_append_of_abort (mt : String → Option Nat)
    (rc : List String → Int) (l1 l2 : List String)
    (h : (buildRun mt rc l1).2 = true) :
    buildRun mt rc (l1 ++ l2) = buildRun mt rc l1 := by
  induction l1 with
  | nil => simp [buildRun] at h
  | cons f rest ih =>
    by_cases hs : isShaderSource f = false
    · simp only [buildRun, if_pos hs] at h
      simp only [List.cons_append, buildRun, if_pos hs]
      exact ih h
    · by_cases hgt : get_mtime mt (dstPath f) > get_mtime mt f
      · simp only [buildRun, if_neg hs, if_pos hgt] at h
        simp only [List.cons_append, buildRun, if_neg hs, if_pos hgt]
        exact ih h
      · by_cases hrc : rc (glslcArgv f) = 0
        · simp only [buildRun, if_neg hs, if_neg hgt, if_pos hrc] at h
          simp only [List.cons_append, buildRun, if_neg hs, if_neg hgt,
            if_pos hrc]
          rw [List.append_eq, ih h]
        · simp only [List.cons_append, buildRun, if_neg hs, if_neg hgt,
            if_neg hrc]

/-- Every event of a build run, aborted or not, is a compiler invocation on
a discovered shader source that needed compiling, with the exact argument
vector of line 42. -/
theorem buildRun_events_shape (mt : String → Option Nat)
    (rc : List String → Int) (fs : List String) :
    ∀ e ∈ (buildRun mt rc fs).1, ∃ f, f ∈ fs ∧ needsCompile mt f = true ∧
      e = Event.invoke (glslcArgv f) := by
  induction fs with
  | nil => intro e he; simp [buildRun] at he
  | cons f rest ih =>
    intro e he
    by_cases hs : isShaderSource f = false
    · simp only [buildRun, if_pos hs] at he
      obtain ⟨g, hg, hgn, hge⟩ := ih e he
      exact ⟨g, List.mem_cons_of_mem f hg, hgn, hge⟩
    · by_cases hgt : get_mtime mt (dstPath f) > get_mtime mt f
      · simp only [buildRun, if_neg hs, if_pos hgt] at he
        obtain ⟨g, hg, hgn, hge⟩ := ih e he
        exact ⟨g, List.mem_cons_of_mem f hg, hgn, hge⟩
      · have hs' : isShaderSource f = true := by simpa using hs
        have hnc : needsCompile mt f = true := by
          simp [needsCompile, hs', hgt]
        by_cases hrc : rc (glslcArgv f) = 0
        · simp only [buildRun, if_neg hs, if_neg hgt, if_pos hrc,
            List.mem_cons] at he
          rcases he with he | he
          · exact ⟨f, List.mem_cons_self f rest, hnc, he⟩
          · obtain ⟨g, hg, hgn, hge⟩ := ih e he
            exact ⟨g, List.mem_cons_of_mem f hg, hgn, hge⟩
        · simp only [buildRun, if_neg hs, if_neg hgt, if_neg hrc,
            List.mem_singleton] at he
          exact ⟨f, List.mem_cons_self f rest, hnc, he⟩

/-- Clean mode deletes exactly the discovered `.spv` paths, in enumeration
order. -/
theorem cleanRun_eq (fs : List String) :
    cleanRun fs =
      (fs.filter (fun p => strEndsWith p ".spv")).map Event.remove := by
  induction fs with
  | nil => rfl
  | cons f rest ih =>
    by_cases h : strEndsWith f ".spv" = true
    · simp [cleanRun, List.filter_cons, h, ih]
    · have h' : strEndsWith f ".spv" = false := by simpa using h
      simp [cleanRun, List.filter_cons, h', ih]

/-- No path ends both in the artifact suffix `.spv` and in a shader-source
extension: the last characters differ. -/
theorem spv_not_shader (p : String) (h : strEndsWith p ".spv" = true) :
    isShaderSource p = false := by
  have h1 : (".spv" : String).data <:+ p.data :=
    List.isSuffixOf_iff_suffix.mp h
  cases hv : strEndsWith p ".vert" with
  | true =>
    exfalso
    have h2 : (".vert" : String).data <:+ p.data :=
      List.isSuffixOf_iff_suffix.mp hv
    obtain ⟨t, ht⟩ := h1
    obtain ⟨u, hu⟩ := h2
    have hlast := congrArg List.getLast? (ht.trans hu.symm)
    simp [List.getLast?_append] at hlast
  | false =>
    cases hf : strEndsWith p ".frag" with
    | true =>
      exfalso
      have h2 : (".frag" : String).data <:+ p.data :=
        List.isSuffixOf_iff_suffix.mp hf
      obtain ⟨t, ht⟩ := h1
      obtain ⟨u, hu⟩ := h2
      have hlast := congrArg List.getLast? (ht.trans hu.symm)
      simp [List.getLast?_append] at hlast
    | false => simp [isShaderSource, hv, hf]

/-- In a successful build run, `f`'s invocation appears in the trace exactly
when `f` was discovered and needed compiling. -/
theorem invoke_mem_iff (mt : String → Option Nat) (rc : List String → Int)
    (fs : List String) (f : String) (hok : (buildRun mt rc fs).2 = false) :
    Event.invoke (glslcArgv f) ∈ (buildRun mt rc fs).1 ↔
      f ∈ fs ∧ needsCompile mt f = true := by
  rw [buildRun_ok_eq mt rc fs hok]
  simp only [List.mem_map, Event.invoke.injEq]
  constructor
  · rintro ⟨g, hg, hge⟩
    have hgf : g = f := glslcArgv_injective hge
    subst hgf
    exact List.mem_filter.mp hg
  · intro hf
    exact ⟨f, List.mem_filter.mpr hf, rfl⟩

/-- Claim C1: in a build run that completes, a discovered shader source is
skipped (its invocation is absent from the trace) if and only if its
artifact's modification time is strictly greater than the source's; in
particular, on equal timestamps the compiler is invoked. -/
theorem C1_skip_iff_artifact_strictly_newer (mt : String → Option Nat)
    (rc : List String → Int) (fs : List String) (f : String) (hf : f ∈ fs)
    (hs : isShaderSource f = true) (hok : (buildRun mt rc fs).2 = false) :
    (Event.invoke (glslcArgv f) ∉ (buildRun mt rc fs).1 ↔
      get_mtime mt (dstPath f) > get_mtime mt f) ∧
    (get_mtime mt (dstPath f) = get_mtime mt f →
      Event.invoke (glslcArgv f) ∈ (buildRun mt rc fs).1) := by
  have hmem : Event.invoke (glslcArgv f) ∈ (buildRun mt rc fs).1 ↔
      ¬ get_mtime mt (dstPath f) > get_mtime mt f := by
    rw [invoke_mem_iff mt rc fs f hok]
    simp [needsCompile, hs, hf]
  constructor
  · rw [hmem]
    exact not_not
  · intro heq
    rw [hmem]
    omega

/-- Witness for C1: a source and artifact with equal timestamps; the run
completes and the compiler is invoked for the tied pair. -/
theorem C1_witness :
    Event.invoke (glslcArgv "resources/shaders/a.vert") ∈
      (buildRun
        (mtOf [("resources/shaders/a.vert", 5), ("resources/shaders/a.vert.spv", 5)])
        rcZero ["resources/shaders/a.vert"]).1 :=
  (C1_skip_iff_artifact_strictly_newer
    (mtOf [("resources/shaders/a.vert", 5), ("resources/shaders/a.vert.spv", 5)])
    rcZero ["resources/shaders/a.vert"] "resources/shaders/a.vert"
    (by decide) (by decide) (by decide)).2 (by decide)

/-- Claim C2: a non-zero compiler return code aborts the build run
immediately: the run's outcome ignores every path listed after the failing
one, and the trace ends with the failing invocation. -/
theorem C2_nonzero_exit_aborts (mt : String → Option Nat)
    (rc : List String → Int) (pre : List String) (b : String)
    (post : List String) (hpre : (buildRun mt rc pre).2 = false)
    (hb : needsCompile mt b = true) (hrc : rc (glslcArgv b) ≠ 0) :
    (buildRun mt rc (pre ++ b :: post)).2 = true ∧
    buildRun mt rc (pre ++ b :: post) = buildRun mt rc (pre ++ [b]) ∧
    (buildRun mt rc (pre ++ b :: post)).1 =
      (buildRun mt rc pre).1 ++ [Event.invoke (glslcArgv b)] := by
  have hbs : isShaderSource b = true := by
    have h := hb
    simp only [needsCompile, Bool.and_eq_true] at h
    exact h.1
  have hbgt : ¬ get_mtime mt (dstPath b) > get_mtime mt b := by
    have h := hb
    simp only [needsCompile, Bool.and_eq_true, Bool.not_eq_true',
      decide_eq_false_iff_not] at h
    exact h.2
  have hsingle : buildRun mt rc [b] = ([Event.invoke (glslcArgv b)], true) := by
    simp only [buildRun]
    rw [if_neg (by simp [hbs]), if_neg hbgt, if_neg hrc]
  have h1 : buildRun mt rc (pre ++ [b]) =
      ((buildRun mt rc pre).1 ++ [Event.invoke (glslcArgv b)], true) := by
    rw [buildRun_append_of_ok mt rc pre [b] hpre, hsingle]
  have h2 : buildRun mt rc (pre ++ b :: post) = buildRun mt rc (pre ++ [b]) := by
    have hassoc : pre ++ b :: post = (pre ++ [b]) ++ post := by simp
    rw [hassoc]
    exact buildRun_append_of_abort mt rc (pre ++ [b]) post (by rw [h1])
  refine ⟨?_, h2, ?_⟩
  · rw [h2, h1]
  · rw [h2, h1]

/-- Witness for C2: `b.frag` fails to compile; the path `c.vert` listed
after it does not change the run's outcome. -/
theorem C2_witness :
    (buildRun mtNone rcOne
      ([] ++ "resources/shaders/b.frag" :: ["resources/shaders/c.vert"])).2 =
      true :=
  (C2_nonzero_exit_aborts mtNone rcOne [] "resources/shaders/b.frag"
    ["resources/shaders/c.vert"] (by decide) (by decide) (by decide)).1

/-- Claim C3: a source whose artifact is missing is treated as having
artifact timestamp 0, so a completed build run invokes the compiler exactly
once for it (first-time compilation always proceeds). -/
theorem C3_missing_artifact_compiled_once (mt : String → Option Nat)
    (rc : List String → Int) (fs : List String) (f : String)
    (hcount : List.count f fs = 1) (hs : isShaderSource f = true)
    (hmiss : mt (dstPath f) = none)
    (hok : (buildRun mt rc fs).2 = false) :
    List.count (Event.invoke (glslcArgv f)) (buildRun mt rc fs).1 = 1 := by
  rw [buildRun_ok_eq mt rc fs hok]
  have hnc : needsCompile mt f = true := by
    simp [needsCompile, hs, get_mtime, hmiss]
  have hinj : Function.Injective (fun g => Event.invoke (glslcArgv g)) := by
    intro a b h
    simp only [Event.invoke.injEq] at h
    exact glslcArgv_injective h
  calc List.count (Event.invoke (glslcArgv f))
        (List.map (fun g => Event.invoke (glslcArgv g))
          (List.filter (needsCompile mt) fs))
      = List.count f (List.filter (needsCompile mt) fs) :=
        List.count_map_of_injective _ _ hinj f
    _ = List.count f fs := List.count_filter hnc
    _ = 1 := hcount

/-- Witness for C3: a single source with no artifact is compiled exactly
once. -/
theorem C3_witness :
    List.count (Event.invoke (glslcArgv "resources/shaders/a.vert"))
      (buildRun mtNone rcZero ["resources/shaders/a.vert"]).1 = 1 :=
  C3_missing_artifact_compiled_once mtNone rcZero
    ["resources/shaders/a.vert"] "resources/shaders/a.vert"
    (by decide) (by decide) rfl (by decide)

/-- Claim C4: clean mode deletes exactly the discovered paths ending in
`.spv` (no other file is touched) and performs no compiler invocation. -/
theorem C4_clean_deletes_exactly_spv :
    ∀ fs : List String,
      cleanRun fs =
        (fs.filter (fun p => strEndsWith p ".spv")).map Event.remove ∧
      (cleanRun fs).all isRemoveEvent = true := by
  intro fs
  refine ⟨cleanRun_eq fs, ?_⟩
  rw [cleanRun_eq fs, List.all_eq_true]
  intro e he
  obtain ⟨p, hp, hpe⟩ := List.mem_map.mp he
  rw [← hpe]
  rfl

/-- Claim C5: build mode considers exactly the discovered paths with a
`.vert` or `.frag` extension — any other path contributes nothing to the
run, independently of any timestamp — and every invocation in the trace is
`glslc -o <source>.spv <source>` for some considered source. -/
theorem C5_extension_filter_and_argv (mt : String → Option Nat)
    (rc : List String → Int) :
    (∀ f rest, isShaderSource f = false →
      buildRun mt rc (f :: rest) = buildRun mt rc rest) ∧
    (∀ fs, ∀ e ∈ (buildRun mt rc fs).1, ∃ f, f ∈ fs ∧
      isShaderSource f = true ∧
      e = Event.invoke ["glslc", "-o", dstPath f, f]) := by
  constructor
  · intro f rest h
    simp only [buildRun, if_pos h]
  · intro fs e he
    obtain ⟨f, hf, hnc, hev⟩ := buildRun_events_shape mt rc fs e he
    have hs : isShaderSource f = true := by
      simp only [needsCompile, Bool.and_eq_true] at hnc
      exact hnc.1
    exact ⟨f, hf, hs, hev⟩

/-- Witness for C5: a discovered non-shader path is skipped outright. -/
theorem C5_witness :
    buildRun mtNone rcZero ["resources/shaders/notes.txt"] =
      buildRun mtNone rcZero [] :=
  (C5_extension_filter_and_argv mtNone rcZero).1
    "resources/shaders/notes.txt" [] (by decide)

/-- Claim C6: build is idempotent.  If a build run completes, the sources
are unchanged afterwards, every compiled artifact now carries a timestamp
strictly greater than its source's (the compiler just wrote it), and the
artifacts of skipped pairs are untouched, then a second build run performs
no compiler invocation at all. -/
theorem C6_second_run_no_invocations (mt1 mt2 : String → Option Nat)
    (rc1 rc2 : List String → Int) (fs : List String)
    (hok : (buildRun mt1 rc1 fs).2 = false)
    (hsrc : ∀ f ∈ fs, isShaderSource f = true → mt2 f = mt1 f)
    (hnew : ∀ f ∈ fs, Event.invoke (glslcArgv f) ∈ (buildRun mt1 rc1 fs).1 →
      get_mtime mt2 (dstPath f) > get_mtime mt2 f)
    (hold : ∀ f ∈ fs, isShaderSource f = true →
      Event.invoke (glslcArgv f) ∉ (buildRun mt1 rc1 fs).1 →
      mt2 (dstPath f) = mt1 (dstPath f)) :
    buildRun mt2 rc2 fs = ([], false) := by
  apply buildRun_all_skip
  intro f hf
  by_cases hs : isShaderSource f = true
  · by_cases hmem : Event.invoke (glslcArgv f) ∈ (buildRun mt1 rc1 fs).1
    · have hgt := hnew f hf hmem
      simp [needsCompile, hgt]
    · have hnc1 : needsCompile mt1 f = false := by
        by_contra hcon
        have hnc : needsCompile mt1 f = true := by simpa using hcon
        exact hmem ((invoke_mem_iff mt1 rc1 fs f hok).mpr ⟨hf, hnc⟩)
      have hgt1 : get_mtime mt1 (dstPath f) > get_mtime mt1 f := by
        simp only [needsCompile, hs, Bool.true_and, Bool.not_eq_false'] at hnc1
        exact of_decide_eq_true hnc1
      have hdst := hold f hf hs hmem
      have hsrc' := hsrc f hf hs
      have e1 : get_mtime mt2 (dstPath f) = get_mtime mt1 (dstPath f) := by
        unfold get_mtime
        rw [hdst]
      have e2 : get_mtime mt2 f = get_mtime mt1 f := by
        unfold get_mtime
        rw [hsrc']
      simp [needsCompile, e1, e2, hgt1]
  · have hs' : isShaderSource f = false := by simpa using hs
    simp [needsCompile, hs']

/-- Witness for C6: after a first run compiled `a.vert` and produced a
strictly newer `a.vert.spv`, the second run does nothing. -/
theorem C6_witness :
    buildRun
      (mtOf [("resources/shaders/a.vert", 5), ("resources/shaders/a.vert.spv", 6)])
      rcOne ["resources/shaders/a.vert"] = ([], false) :=
  C6_second_run_no_invocations
    (mtOf [("resources/shaders/a.vert", 5)])
    (mtOf [("resources/shaders/a.vert", 5), ("resources/shaders/a.vert.spv", 6)])
    rcZero rcOne ["resources/shaders/a.vert"]
    (by decide) (by decide) (by decide) (by decide)

/-- Claim C7: the artifact path is the pure suffix map `src ↦ src ++ ".spv"`
and this map is one-to-one: distinct sources yield distinct artifacts. -/
theorem C7_artifact_path_injective :
    (∀ s : String, dstPath s = s ++ ".spv") ∧
    ∀ a b : String, dstPath a = dstPath b → a = b := by
  constructor
  · intro s
    rfl
  · intro a b h
    have hdata : a.data ++ (".spv" : String).data =
        b.data ++ (".spv" : String).data := by
      have hd := congrArg String.data h
      simpa [dstPath, String.data_append] using hd
    exact String.ext (List.append_cancel_right hdata)

/-- Witness for C7: applying injectivity at a concrete pair of equal
artifact paths. -/
theorem C7_witness : ("a.vert" : String) = "a.vert" :=
  C7_artifact_path_injective.2 "a.vert" "a.vert" rfl

/-- Claim C8: a missing source root means the glob discovers nothing, and
both clean mode and build mode finish successfully with an empty trace. -/
theorem C8_missing_root_is_noop (existing : List String)
    (mt : String → Option Nat) (rc : List String → Int)
    (h : ∀ p ∈ existing, strStartsWith p shaderRoot = false) :
    globShaders existing = [] ∧
    mainRun true mt rc (globShaders existing) = ([], false) ∧
    mainRun false mt rc (globShaders existing) = ([], false) := by
  have hg : globShaders existing = [] := by
    rw [globShaders, List.filter_eq_nil_iff]
    intro p hp
    simp [h p hp]
  refine ⟨hg, ?_, ?_⟩
  · rw [hg]
    rfl
  · rw [hg]
    rfl

/-- Witness for C8: a filesystem with nothing under `resources/shaders/`. -/
theorem C8_witness : globShaders ["notes.txt"] = [] :=
  (C8_missing_root_is_noop ["notes.txt"] mtNone rcZero (by decide)).1

/-- Claim C9: the two modes have disjoint effects.  Clean mode only removes
files and never aborts, every path it removes ends in `.spv` — so it
touches no file not ending in `.spv` — build mode only invokes the
compiler, and no path is both an artifact (`.spv`) and a shader source
(`.vert`/`.frag`), so clean mode can never delete a path build mode would
treat as a source. -/
theorem C9_modes_do_not_overlap (mt : String → Option Nat)
    (rc : List String → Int) (found : List String) :
    ((mainRun true mt rc found).1.all isRemoveEvent = true ∧
      (mainRun true mt rc found).2 = false) ∧
    (∀ p : String, Event.remove p ∈ (mainRun true mt rc found).1 →
      strEndsWith p ".spv" = true ∧ isShaderSource p = false) ∧
    (mainRun false mt rc found).1.all isInvokeEvent = true ∧
    ∀ p : String, strEndsWith p ".spv" = true → isShaderSource p = false := by
  refine ⟨⟨?_, rfl⟩, ?_, ?_, spv_not_shader⟩
  · show (cleanRun found).all isRemoveEvent = true
    rw [cleanRun_eq, List.all_eq_true]
    intro e he
    obtain ⟨p, hp, hpe⟩ := List.mem_map.mp he
    rw [← hpe]
    rfl
  · intro p hp
    have hp' : Event.remove p ∈ cleanRun found := hp
    rw [cleanRun_eq] at hp'
    obtain ⟨q, hq, hqe⟩ := List.mem_map.mp hp'
    have hqp : q = p := by
      simpa using hqe
    subst hqp
    have hspv : strEndsWith q ".spv" = true := (List.mem_filter.mp hq).2
    exact ⟨hspv, spv_not_shader q hspv⟩
  · show (buildRun mt rc found).1.all isInvokeEvent = true
    rw [List.all_eq_true]
    intro e he
    obtain ⟨f, hf, hnc, hev⟩ := buildRun_events_shape mt rc found e he
    rw [hev]
    rfl

/-- Witness for C9: a clean run that removed `a.vert.spv` removed an
artifact path, which is not itself a shader source. -/
theorem C9_witness :
    strEndsWith "resources/shaders/a.vert.spv" ".spv" = true ∧
      isShaderSource "resources/shaders/a.vert.spv" = false :=
  (C9_modes_do_not_overlap mtNone rcZero
    ["resources/shaders/a.vert.spv"]).2.1 "resources/shaders/a.vert.spv"
    (by decide)

/-- Claim C10: `get_mtime` is total on missing files — it returns 0 instead
of raising — so a source that is itself missing, with no artifact present,
still has its invocation recorded (0 > 0 fails, nothing is skipped and
nothing fails at the stat step). -/
theorem C10_missing_source_still_compiled (mt : String → Option Nat)
    (rc : List String → Int) (f : String) (hs : isShaderSource f = true)
    (hfsrc : mt f = none) (hfdst : mt (dstPath f) = none) :
    get_mtime mt f = 0 ∧ get_mtime mt (dstPath f) = 0 ∧
    Event.invoke (glslcArgv f) ∈ (buildRun mt rc [f]).1 := by
  have e1 : get_mtime mt f = 0 := by simp [get_mtime, hfsrc]
  have e2 : get_mtime mt (dstPath f) = 0 := by simp [get_mtime, hfdst]
  refine ⟨e1, e2, ?_⟩
  have hngt : ¬ get_mtime mt (dstPath f) > get_mtime mt f := by omega
  by_cases hrc : rc (glslcArgv f) = 0
  · simp [buildRun, hs, hngt, hrc]
  · simp [buildRun, hs, hngt, hrc]

/-- Witness for C10: a missing source with a missing artifact is still
passed to the (here failing) compiler. -/
theorem C10_witness :
    Event.invoke (glslcArgv "resources/shaders/a.vert") ∈
      (buildRun mtNone rcOne ["resources/shaders/a.vert"]).1 :=
  (C10_missing_source_still_compiled mtNone rcOne "resources/shaders/a.vert"
    (by decide) rfl rfl).2.2
